import Mathlib

/-!
Verification development for the `vae_mnist.py` script: Bayesian
optimization (BO) in the latent space of a VAE over MNIST.

The BO controller of the script is embedded shallowly.  External
collaborators — the pretrained CNN classifier, the VAE decoder, the GP
surrogate fit (`get_fitted_model` / `fit_gpytorch_mll`) and the
acquisition optimizer (`optimize_acqf`) of the library, and the seeded
pseudo-random draws of `torch.rand` / `torch.manual_seed` — are modelled
as explicit function parameters and input streams, so that a run of the
script is a pure function of them.  Scores are kept abstract over a
linear order for the loop-structure results and instantiated with the
reals for the scoring-function results.
-/

namespace VaeMnist

/-- A latent vector: a point of the `D`-dimensional optimization domain
(`d = 20` in the script, `bounds = [-6, 6]^d`).  Coordinates are modelled
as rationals. -/
abbrev Vec (D : Nat) := Fin D → ℚ

/-- Tensor `.max()` over a list of scores: the maximum of a nonempty
list, `none` on an empty tensor (where torch raises a runtime error). -/
def torchMax {α : Type} [LinearOrder α] : List α → Option α
  | [] => none
  | a :: as => some (as.foldl max a)

theorem le_foldl_max {α : Type} [LinearOrder α] (as : List α) (a : α) :
    a ≤ as.foldl max a := by
  induction as generalizing a with
  | nil => exact le_refl a
  | cons b bs ih => exact le_trans (le_max_left a b) (ih (max a b))

theorem le_foldl_max_of_mem {α : Type} [LinearOrder α] {x : α} (as : List α) (a : α)
    (hx : x ∈ as) : x ≤ as.foldl max a := by
  induction as generalizing a with
  | nil => cases hx
  | cons b bs ih =>
    rcases List.mem_cons.mp hx with h | h
    · subst h
      exact le_trans (le_max_right a x) (le_foldl_max bs (max a x))
    · exact ih (max a b) h

theorem foldl_max_mem {α : Type} [LinearOrder α] (as : List α) (a : α) :
    as.foldl max a = a ∨ as.foldl max a ∈ as := by
  induction as generalizing a with
  | nil => exact Or.inl rfl
  | cons b bs ih =>
    rw [List.foldl_cons]
    rcases ih (max a b) with h | h
    · rcases max_choice a b with h' | h'
      · exact Or.inl (h.trans h')
      · exact Or.inr (by rw [h, h']; exact List.mem_cons_self b bs)
    · exact Or.inr (List.mem_cons_of_mem b h)

theorem torchMax_mem {α : Type} [LinearOrder α] {l : List α} {m : α}
    (h : torchMax l = some m) : m ∈ l := by
  cases l with
  | nil => cases h
  | cons a as =>
    have hm : as.foldl max a = m := by
      simpa [torchMax] using h
    rcases foldl_max_mem as a with h' | h'
    · rw [← hm, h']; exact List.mem_cons_self a as
    · rw [← hm]; exact List.mem_cons_of_mem a h'

theorem le_torchMax {α : Type} [LinearOrder α] {l : List α} {m x : α}
    (h : torchMax l = some m) (hx : x ∈ l) : x ≤ m := by
  cases l with
  | nil => cases h
  | cons a as =>
    have hm : as.foldl max a = m := by
      simpa [torchMax] using h
    rcases List.mem_cons.mp hx with h' | h'
    · rw [← hm, h']; exact le_foldl_max as a
    · rw [← hm]; exact le_foldl_max_of_mem as a h'

theorem torchMax_isSome {α : Type} [LinearOrder α] {l : List α} (h : l ≠ []) :
    ∃ m, torchMax l = some m := by
  cases l with
  | nil => exact absurd rfl h
  | cons a as => exact ⟨as.foldl max a, rfl⟩

theorem torchMax_append_le {α : Type} [LinearOrder α] {l l' : List α} {m m' : α}
    (h : torchMax l = some m) (h' : torchMax (l ++ l') = some m') : m ≤ m' :=
  le_torchMax h' (List.mem_append_left l' (torchMax_mem h))

/-- Modelled from the spec: the library `unnormalize` affine transform (not
under `src/`), mapping the unit cube of the optimizer onto the true domain box
(spec section 6: the two domains are "related by a normalize/unnormalize
affine transform"). -/
def unnormalize {D : Nat} (lo hi : Vec D) (x : Vec D) : Vec D :=
  fun i => lo i + (hi i - lo i) * x i

/-- Modelled from the spec: the library `normalize` affine transform (not
under `src/`), inverse direction of `unnormalize`. -/
def normalize {D : Nat} (lo hi : Vec D) (x : Vec D) : Vec D :=
  fun i => (x i - lo i) / (hi i - lo i)

/-- Lower bound of the domain box of the script, `[-6, 6]^d`. -/
def bounds_lo (D : Nat) : Vec D := fun _ => -6

/-- Upper bound of the domain box of the script, `[-6, 6]^d`. -/
def bounds_hi (D : Nat) : Vec D := fun _ => 6

/-- The latent dimension of the script: `d = 20`. -/
def d : Nat := 20

/-- Constant `BATCH_SIZE = 3 if not SMOKE_TEST else 2`. -/
def BATCH_SIZE (smoke : Bool) : Nat := if smoke then 2 else 3

/-- Constant `NUM_RESTARTS = 10 if not SMOKE_TEST else 2`. -/
def NUM_RESTARTS (smoke : Bool) : Nat := if smoke then 2 else 10

/-- Constant `RAW_SAMPLES = 256 if not SMOKE_TEST else 4`. -/
def RAW_SAMPLES (smoke : Bool) : Nat := if smoke then 4 else 256

/-- Constant `N_BATCH = 25 if not SMOKE_TEST else 3`. -/
def N_BATCH (smoke : Bool) : Nat := if smoke then 3 else 25

/-- The fixed random seed of the script (`seed = 1`). -/
def seed : Nat := 1

/-- The state owned by the BO controller across iterations: the dataset
(`train_x`, `train_obj`), the best-observed history, and the carried
warm-start `state_dict`. -/
structure BOState (D : Nat) (α : Type) (σ : Type) where
  train_x : List (Vec D)
  train_obj : List α
  best_observed : List α
  state_dict : Option σ

/-- Function `gen_initial_data(n)`: `train_x = unnormalize(torch.rand(n, d), bounds)`,
`train_obj = score_image(decode(train_x))`, and the max of the initial batch.
The `torch.rand` draw is the explicit input stream `randPts` (points of the
unit cube); the composite `score_image ∘ decode` objective is `evalObj`. -/
def gen_initial_data {D : Nat} {α : Type} [LinearOrder α]
    (evalObj : Vec D → α) (randPts : List (Vec D)) :
    List (Vec D) × List α × Option α :=
  let train_x := randPts.map (unnormalize (bounds_lo D) (bounds_hi D))
  let train_obj := train_x.map evalObj
  (train_x, train_obj, torchMax train_obj)

/-- Function `optimize_acqf_and_get_observation`: the library call `optimize_acqf`
is skolemized into the candidate batch it returned (points of the unit
cube); the code then unnormalizes the candidates into the true domain and
evaluates the objective on them. -/
def optimize_acqf_and_get_observation {D : Nat} {α : Type}
    (candidates : List (Vec D)) (evalObj : Vec D → α) :
    List (Vec D) × List α :=
  let new_x := candidates.map (unnormalize (bounds_lo D) (bounds_hi D))
  (new_x, new_x.map evalObj)

/-- One iteration of the BO loop body: fit the model (warm-started from the
carried `state_dict`), build the qEI acquisition at `best_f = train_obj.max()`,
optimize it and observe, append the new points to the dataset, append the new
running maximum to `best_observed`, and carry the model state forward.
The library surrogate fit is the parameter `fit`; the acquisition optimizer
is the parameter `acq`, a function of the fitted model, `best_f`, and the
iteration index (the index stands for the advancing state of the seeded
random streams consumed by the optimizer). -/
def boStep {D : Nat} {α : Type} [LinearOrder α] {σ : Type}
    (fit : List (Vec D) → List α → Option σ → σ)
    (acq : σ → α → Nat → List (Vec D))
    (evalObj : Vec D → α) (k : Nat) (s : BOState D α σ) :
    Option (BOState D α σ) :=
  let model := fit s.train_x s.train_obj s.state_dict
  match torchMax s.train_obj with
  | none => none
  | some best_f =>
    let step := optimize_acqf_and_get_observation (acq model best_f k) evalObj
    let train_x := s.train_x ++ step.1
    let train_obj := s.train_obj ++ step.2
    match torchMax train_obj with
    | none => none
    | some best_value =>
      some ⟨train_x, train_obj, s.best_observed ++ [best_value], some model⟩

/-- Run `n` further iterations of the BO loop, the next one carrying
iteration index `k`. -/
def boLoop {D : Nat} {α : Type} [LinearOrder α] {σ : Type}
    (fit : List (Vec D) → List α → Option σ → σ)
    (acq : σ → α → Nat → List (Vec D))
    (evalObj : Vec D → α) : Nat → Nat → BOState D α σ → Option (BOState D α σ)
  | _, 0, s => some s
  | k, n + 1, s =>
    match boStep fit acq evalObj k s with
    | none => none
    | some s' => boLoop fit acq evalObj (k + 1) n s'

/-- The whole run: seed the dataset and the best-observed history from the
initial random batch, then run `N` iterations of the BO loop. -/
def boRun {D : Nat} {α : Type} [LinearOrder α] {σ : Type}
    (fit : List (Vec D) → List α → Option σ → σ)
    (acq : σ → α → Nat → List (Vec D))
    (evalObj : Vec D → α) (randPts : List (Vec D)) (N : Nat) :
    Option (BOState D α σ) :=
  let init := gen_initial_data evalObj randPts
  match init.2.2 with
  | none => none
  | some best_value =>
    boLoop fit acq evalObj 0 N ⟨init.1, init.2.1, [best_value], none⟩

theorem boStep_spec {D : Nat} {α : Type} [LinearOrder α] {σ : Type}
    (fit : List (Vec D) → List α → Option σ → σ)
    (acq : σ → α → Nat → List (Vec D))
    (evalObj : Vec D → α) (k : Nat) {s s' : BOState D α σ}
    (h : boStep fit acq evalObj k s = some s') :
    ∃ best_f new_x new_obj best_value,
      torchMax s.train_obj = some best_f ∧
      new_x = (acq (fit s.train_x s.train_obj s.state_dict) best_f k).map
        (unnormalize (bounds_lo D) (bounds_hi D)) ∧
      new_obj = new_x.map evalObj ∧
      torchMax (s.train_obj ++ new_obj) = some best_value ∧
      s' = ⟨s.train_x ++ new_x, s.train_obj ++ new_obj,
            s.best_observed ++ [best_value],
            some (fit s.train_x s.train_obj s.state_dict)⟩ := by
  unfold boStep at h
  cases htm : torchMax s.train_obj with
  | none => rw [htm] at h; cases h
  | some best_f =>
    rw [htm] at h
    simp only [optimize_acqf_and_get_observation] at h
    cases htm2 : torchMax (s.train_obj ++
        ((acq (fit s.train_x s.train_obj s.state_dict) best_f k).map
          (unnormalize (bounds_lo D) (bounds_hi D))).map evalObj) with
    | none => rw [htm2] at h; cases h
    | some best_value =>
      rw [htm2] at h
      exact ⟨best_f, _, _, best_value, rfl, rfl, rfl, htm2, (Option.some_inj.mp h).symm⟩

theorem boLoop_grow {D : Nat} {α : Type} [LinearOrder α] {σ : Type}
    (fit : List (Vec D) → List α → Option σ → σ)
    (acq : σ → α → Nat → List (Vec D))
    (evalObj : Vec D → α) {q : Nat}
    (hq : ∀ m b j, (acq m b j).length = q) :
    ∀ (n k : Nat) (s s' : BOState D α σ), boLoop fit acq evalObj k n s = some s' →
      (∃ tx, s'.train_x = s.train_x ++ tx ∧ tx.length = n * q) ∧
      (∃ tob, s'.train_obj = s.train_obj ++ tob ∧ tob.length = n * q) ∧
      s'.best_observed.length = s.best_observed.length + n := by
  intro n
  induction n with
  | zero =>
    intro k s s' h
    cases h
    exact ⟨⟨[], by simp, by simp⟩, ⟨[], by simp, by simp⟩, by simp⟩
  | succ n ih =>
    intro k s s' h
    rw [boLoop] at h
    cases hstep : boStep fit acq evalObj k s with
    | none => rw [hstep] at h; cases h
    | some s₁ =>
      rw [hstep] at h
      obtain ⟨bf, nx, no, bv, _, hnx, hno, _, hs₁⟩ := boStep_spec fit acq evalObj k hstep
      obtain ⟨⟨tx, htx, htxl⟩, ⟨tob, htob, htobl⟩, hbo⟩ := ih (k + 1) s₁ s' h
      have hnxl : nx.length = q := by rw [hnx, List.length_map]; exact hq _ _ _
      have hnol : no.length = q := by rw [hno, List.length_map, hnxl]
      subst hs₁
      refine ⟨⟨nx ++ tx, ?_, ?_⟩, ⟨no ++ tob, ?_, ?_⟩, ?_⟩
      · rw [htx]; simp
      · simp [hnxl, htxl, Nat.succ_mul]; ring
      · rw [htob]; simp
      · simp [hnol, htobl, Nat.succ_mul]; ring
      · rw [hbo]; simp; omega

/-- The invariant of the controller state tying the best-observed history
to the dataset: the last history entry is the maximum score of the dataset,
and the history is sorted in non-decreasing order. -/
def BOInv {D : Nat} {α : Type} [LinearOrder α] {σ : Type} (s : BOState D α σ) : Prop :=
  s.best_observed.getLast? = torchMax s.train_obj ∧
  List.Chain' (· ≤ ·) s.best_observed

theorem boStep_inv {D : Nat} {α : Type} [LinearOrder α] {σ : Type}
    (fit : List (Vec D) → List α → Option σ → σ)
    (acq : σ → α → Nat → List (Vec D))
    (evalObj : Vec D → α) (k : Nat) {s s' : BOState D α σ}
    (h : boStep fit acq evalObj k s = some s') (hinv : BOInv s) : BOInv s' := by
  obtain ⟨bf, nx, no, bv, hbf, hnx, hno, hbv, hs'⟩ := boStep_spec fit acq evalObj k h
  obtain ⟨hlast, hchain⟩ := hinv
  subst hs'
  constructor
  · rw [List.getLast?_concat]
    exact hbv.symm
  · refine List.Chain'.append hchain (List.chain'_singleton bv) ?_
    intro x hx y hy
    rw [Option.mem_def] at hx hy
    simp only [List.head?_cons, Option.some_inj] at hy
    subst hy
    rw [hlast, hbf] at hx
    have hxbf : x = bf := (Option.some_inj.mp hx).symm
    subst hxbf
    exact torchMax_append_le hbf hbv

theorem boLoop_inv {D : Nat} {α : Type} [LinearOrder α] {σ : Type}
    (fit : List (Vec D) → List α → Option σ → σ)
    (acq : σ → α → Nat → List (Vec D))
    (evalObj : Vec D → α) :
    ∀ (n k : Nat) (s s' : BOState D α σ), boLoop fit acq evalObj k n s = some s' →
      BOInv s → BOInv s' := by
  intro n
  induction n with
  | zero => intro k s s' h hinv; cases h; exact hinv
  | succ n ih =>
    intro k s s' h hinv
    rw [boLoop] at h
    cases hstep : boStep fit acq evalObj k s with
    | none => rw [hstep] at h; cases h
    | some s₁ =>
      rw [hstep] at h
      exact ih (k + 1) s₁ s' h (boStep_inv fit acq evalObj k hstep hinv)

theorem boLoop_train_x_mem {D : Nat} {α : Type} [LinearOrder α] {σ : Type}
    (fit : List (Vec D) → List α → Option σ → σ)
    (acq : σ → α → Nat → List (Vec D))
    (evalObj : Vec D → α) (Q : Vec D → Prop)
    (hacq : ∀ m b j c, c ∈ acq m b j →
      Q (unnormalize (bounds_lo D) (bounds_hi D) c)) :
    ∀ (n k : Nat) (s s' : BOState D α σ), boLoop fit acq evalObj k n s = some s' →
      (∀ x ∈ s.train_x, Q x) → ∀ x ∈ s'.train_x, Q x := by
  intro n
  induction n with
  | zero => intro k s s' h hQ; cases h; exact hQ
  | succ n ih =>
    intro k s s' h hQ
    rw [boLoop] at h
    cases hstep : boStep fit acq evalObj k s with
    | none => rw [hstep] at h; cases h
    | some s₁ =>
      rw [hstep] at h
      obtain ⟨bf, nx, no, bv, _, hnx, _, _, hs₁⟩ := boStep_spec fit acq evalObj k hstep
      refine ih (k + 1) s₁ s' h ?_
      subst hs₁
      intro x hx
      rcases List.mem_append.mp hx with hx | hx
      · exact hQ x hx
      · rw [hnx] at hx
        obtain ⟨c, hc, hcx⟩ := List.mem_map.mp hx
        rw [← hcx]
        exact hacq _ _ _ c hc

theorem boLoop_scores_mem {D : Nat} {α : Type} [LinearOrder α] {σ : Type}
    (fit : List (Vec D) → List α → Option σ → σ)
    (acq : σ → α → Nat → List (Vec D))
    (evalObj : Vec D → α) (P : α → Prop)
    (hev : ∀ x, P (evalObj x)) :
    ∀ (n k : Nat) (s s' : BOState D α σ), boLoop fit acq evalObj k n s = some s' →
      (∀ y ∈ s.train_obj, P y) → (∀ y ∈ s.best_observed, P y) →
      (∀ y ∈ s'.train_obj, P y) ∧ (∀ y ∈ s'.best_observed, P y) := by
  intro n
  induction n with
  | zero => intro k s s' h h1 h2; cases h; exact ⟨h1, h2⟩
  | succ n ih =>
    intro k s s' h h1 h2
    rw [boLoop] at h
    cases hstep : boStep fit acq evalObj k s with
    | none => rw [hstep] at h; cases h
    | some s₁ =>
      rw [hstep] at h
      obtain ⟨bf, nx, no, bv, _, hnx, hno, hbv, hs₁⟩ := boStep_spec fit acq evalObj k hstep
      have hobj : ∀ y ∈ s.train_obj ++ no, P y := by
        intro y hy
        rcases List.mem_append.mp hy with hy | hy
        · exact h1 y hy
        · rw [hno] at hy
          obtain ⟨c, _, hcy⟩ := List.mem_map.mp hy
          rw [← hcy]; exact hev c
      refine ih (k + 1) s₁ s' h ?_ ?_
      · subst hs₁; exact hobj
      · subst hs₁
        intro y hy
        rcases List.mem_append.mp hy with hy | hy
        · exact h2 y hy
        · rw [List.mem_singleton.mp hy]
          exact hobj bv (torchMax_mem hbv)

theorem boLoop_cons {D : Nat} {α : Type} [LinearOrder α] {σ : Type}
    (fit : List (Vec D) → List α → Option σ → σ)
    (acq : σ → α → Nat → List (Vec D))
    (evalObj : Vec D → α) (n k : Nat) (s : BOState D α σ) :
    boLoop fit acq evalObj k (n + 1) s =
      (boStep fit acq evalObj k s).bind
        (fun s₁ => boLoop fit acq evalObj (k + 1) n s₁) := by
  simp only [boLoop]
  cases boStep fit acq evalObj k s <;> rfl

theorem boLoop_succ {D : Nat} {α : Type} [LinearOrder α] {σ : Type}
    (fit : List (Vec D) → List α → Option σ → σ)
    (acq : σ → α → Nat → List (Vec D))
    (evalObj : Vec D → α) :
    ∀ (n k : Nat) (s : BOState D α σ),
      boLoop fit acq evalObj k (n + 1) s =
        (boLoop fit acq evalObj k n s).bind
          (fun s' => boStep fit acq evalObj (k + n) s') := by
  intro n
  induction n with
  | zero =>
    intro k s
    rw [boLoop_cons]
    simp only [boLoop, Nat.add_zero, Option.some_bind]
    cases boStep fit acq evalObj k s <;> rfl
  | succ n ih =>
    intro k s
    rw [boLoop_cons fit acq evalObj (n + 1) k s,
        boLoop_cons fit acq evalObj n k s]
    cases boStep fit acq evalObj k s with
    | none => rfl
    | some s₁ =>
      simp only [Option.some_bind]
      rw [ih (k + 1) s₁, show k + 1 + n = k + (n + 1) by omega]

theorem boRun_spec {D : Nat} {α : Type} [LinearOrder α] {σ : Type}
    (fit : List (Vec D) → List α → Option σ → σ)
    (acq : σ → α → Nat → List (Vec D))
    (evalObj : Vec D → α) (randPts : List (Vec D)) (N : Nat)
    {s' : BOState D α σ}
    (h : boRun fit acq evalObj randPts N = some s') :
    ∃ bv, torchMax ((randPts.map (unnormalize (bounds_lo D) (bounds_hi D))).map evalObj)
        = some bv ∧
      boLoop fit acq evalObj 0 N
        ⟨randPts.map (unnormalize (bounds_lo D) (bounds_hi D)),
         (randPts.map (unnormalize (bounds_lo D) (bounds_hi D))).map evalObj,
         [bv], none⟩ = some s' := by
  have hdef : boRun fit acq evalObj randPts N =
      (match torchMax ((randPts.map (unnormalize (bounds_lo D) (bounds_hi D))).map evalObj) with
       | none => none
       | some bv =>
         boLoop fit acq evalObj 0 N
           ⟨randPts.map (unnormalize (bounds_lo D) (bounds_hi D)),
            (randPts.map (unnormalize (bounds_lo D) (bounds_hi D))).map evalObj,
            [bv], none⟩) := rfl
  rw [hdef] at h
  cases htm : torchMax ((randPts.map (unnormalize (bounds_lo D) (bounds_hi D))).map evalObj) with
  | none => rw [htm] at h; cases h
  | some bv => rw [htm] at h; exact ⟨bv, rfl, h⟩

theorem boLoop_best_len {D : Nat} {α : Type} [LinearOrder α] {σ : Type}
    (fit : List (Vec D) → List α → Option σ → σ)
    (acq : σ → α → Nat → List (Vec D))
    (evalObj : Vec D → α) :
    ∀ (n k : Nat) (s s' : BOState D α σ), boLoop fit acq evalObj k n s = some s' →
      s'.best_observed.length = s.best_observed.length + n := by
  intro n
  induction n with
  | zero => intro k s s' h; cases h; simp
  | succ n ih =>
    intro k s s' h
    rw [boLoop] at h
    cases hstep : boStep fit acq evalObj k s with
    | none => rw [hstep] at h; cases h
    | some s₁ =>
      rw [hstep] at h
      obtain ⟨bf, nx, no, bv, _, _, _, _, hs₁⟩ := boStep_spec fit acq evalObj k hstep
      have := ih (k + 1) s₁ s' h
      subst hs₁
      simp at this
      omega

theorem unnormalize_unit_mem {D : Nat} {p : Vec D}
    (hp : ∀ i, 0 ≤ p i ∧ p i ≤ 1) (i : Fin D) :
    -6 ≤ unnormalize (bounds_lo D) (bounds_hi D) p i ∧
    unnormalize (bounds_lo D) (bounds_hi D) p i ≤ 6 := by
  obtain ⟨h0, h1⟩ := hp i
  unfold unnormalize bounds_lo bounds_hi
  constructor <;> nlinarith

/-- C1: for every run with initial size `n_init` (= `randPts.length`) and
per-iteration batch size `batch_size` (= `q`, the size of the candidate batch
returned by the acquisition optimizer), the dataset owned by the BO controller
has exactly `n_init + k * batch_size` observations after `k` completed
iterations; the initial seeding contributes the `n_init` unnormalized random
rows (still present, unmodified, at the front of the dataset), and the iteration
from `k` to `k + 1` appends exactly `batch_size` (latent, score) pairs,
never removing or mutating existing entries. -/
theorem dataset_size_after_iterations {D : Nat} {α : Type} [LinearOrder α] {σ : Type}
    (fit : List (Vec D) → List α → Option σ → σ)
    (acq : σ → α → Nat → List (Vec D))
    (evalObj : Vec D → α) (randPts : List (Vec D)) (q k : Nat)
    (s' s'' : BOState D α σ)
    (hq : ∀ m b j, (acq m b j).length = q)
    (h1 : boRun fit acq evalObj randPts k = some s')
    (h2 : boRun fit acq evalObj randPts (k + 1) = some s'') :
    s'.train_x.length = randPts.length + k * q ∧
    s'.train_obj.length = randPts.length + k * q ∧
    s'.train_x.take randPts.length
      = randPts.map (unnormalize (bounds_lo D) (bounds_hi D)) ∧
    ∃ nx no, s''.train_x = s'.train_x ++ nx ∧ s''.train_obj = s'.train_obj ++ no ∧
      nx.length = q ∧ no.length = q := by
  obtain ⟨bv, hbv, hloop1⟩ := boRun_spec fit acq evalObj randPts k h1
  obtain ⟨bv2, hbv2, hloop2⟩ := boRun_spec fit acq evalObj randPts (k + 1) h2
  rw [hbv] at hbv2
  have hbveq : bv = bv2 := Option.some_inj.mp hbv2
  subst hbveq
  obtain ⟨⟨tx, htx, htxl⟩, ⟨tob, htob, htobl⟩, _⟩ :=
    boLoop_grow fit acq evalObj hq k 0 _ s' hloop1
  have hlen_init : (randPts.map (unnormalize (bounds_lo D) (bounds_hi D))).length
      = randPts.length := List.length_map _ _
  refine ⟨?_, ?_, ?_, ?_⟩
  · rw [htx]; simp [htxl]
  · rw [htob]; simp [htobl]
  · rw [htx, ← hlen_init, List.take_left]
  · rw [boLoop_succ] at hloop2
    rw [hloop1, Option.some_bind] at hloop2
    obtain ⟨bf, nx, no, bv', _, hnx, hno, _, hs''⟩ :=
      boStep_spec fit acq evalObj (0 + k) hloop2
    have hnxl : nx.length = q := by rw [hnx, List.length_map]; exact hq _ _ _
    have hnol : no.length = q := by rw [hno, List.length_map, hnxl]
    exact ⟨nx, no, by rw [hs''], by rw [hs''], hnxl, hnol⟩

/-- C2: the best-observed history is monotonically non-decreasing: for every
run and every valid index `i`, the entry at `i` is at most the entry at
`i + 1`, because each entry is the running maximum over a dataset that only
grows. -/
theorem best_observed_monotone {D : Nat} {α : Type} [LinearOrder α] {σ : Type}
    (fit : List (Vec D) → List α → Option σ → σ)
    (acq : σ → α → Nat → List (Vec D))
    (evalObj : Vec D → α) (randPts : List (Vec D)) (N : Nat)
    (s' : BOState D α σ)
    (h : boRun fit acq evalObj randPts N = some s') (i : Nat)
    (hi : i + 1 < s'.best_observed.length) :
    s'.best_observed.get ⟨i, Nat.lt_of_succ_lt hi⟩
      ≤ s'.best_observed.get ⟨i + 1, hi⟩ := by
  obtain ⟨bv, hbv, hloop⟩ := boRun_spec fit acq evalObj randPts N h
  have hinv : BOInv s' := by
    refine boLoop_inv fit acq evalObj N 0 _ s' hloop ⟨?_, List.chain'_singleton bv⟩
    simpa using hbv.symm
  exact (List.chain'_iff_get.mp hinv.2) i (by omega)

/-- C3: after every run (`N` arbitrary, hence also after every iteration),
the last entry of the best-observed history equals the maximum score present
in the dataset, and the length of the history is 1 (for the initial random batch)
plus the number of completed iterations. -/
theorem best_observed_last_and_length {D : Nat} {α : Type} [LinearOrder α] {σ : Type}
    (fit : List (Vec D) → List α → Option σ → σ)
    (acq : σ → α → Nat → List (Vec D))
    (evalObj : Vec D → α) (randPts : List (Vec D)) (N : Nat)
    (s' : BOState D α σ)
    (h : boRun fit acq evalObj randPts N = some s') :
    s'.best_observed.getLast? = torchMax s'.train_obj ∧
    s'.best_observed.length = 1 + N := by
  obtain ⟨bv, hbv, hloop⟩ := boRun_spec fit acq evalObj randPts N h
  have hinv : BOInv s' := by
    refine boLoop_inv fit acq evalObj N 0 _ s' hloop ⟨?_, List.chain'_singleton bv⟩
    simpa using hbv.symm
  have hlen := boLoop_best_len fit acq evalObj N 0 _ s' hloop
  simp at hlen
  exact ⟨hinv.1, by omega⟩

/-- C4: every latent vector ever passed to the objective evaluator — the
unnormalized initial random points and every unnormalized
acquisition-selected candidate, which together make up exactly the latent
column of the dataset — lies componentwise within the declared bounded domain
`[-6, 6]^d`, given that the random draws and the candidates of the optimizer lie
in the unit cube `[0, 1]^d` that `unnormalize` maps onto the true domain. -/
theorem latents_within_domain {D : Nat} {α : Type} [LinearOrder α] {σ : Type}
    (fit : List (Vec D) → List α → Option σ → σ)
    (acq : σ → α → Nat → List (Vec D))
    (evalObj : Vec D → α) (randPts : List (Vec D)) (N : Nat)
    (s' : BOState D α σ)
    (hrand : ∀ p ∈ randPts, ∀ i, 0 ≤ p i ∧ p i ≤ 1)
    (hacq : ∀ m b j, ∀ c ∈ acq m b j, ∀ i, 0 ≤ c i ∧ c i ≤ 1)
    (h : boRun fit acq evalObj randPts N = some s') :
    ∀ x ∈ s'.train_x, ∀ i, -6 ≤ x i ∧ x i ≤ 6 := by
  obtain ⟨bv, hbv, hloop⟩ := boRun_spec fit acq evalObj randPts N h
  refine boLoop_train_x_mem fit acq evalObj (fun x => ∀ i, -6 ≤ x i ∧ x i ≤ 6)
    ?_ N 0 _ s' hloop ?_
  · intro m b j c hc i
    exact unnormalize_unit_mem (hacq m b j c hc) i
  · intro x hx i
    obtain ⟨p, hp, hpx⟩ := List.mem_map.mp hx
    rw [← hpx]
    exact unnormalize_unit_mem (hrand p hp) i

/-- C5: determinism: the run is a pure function of the seeded random
streams (the initial draw `pts` and the per-iteration acquisition stream
`acq`), the pretrained-weight-determined objective `ev`, the surrogate fit
`fit`, and the iteration budget `N`; two runs whose inputs agree produce
identical dataset sequences (same latent vectors and scores in the same
order) and identical histories. -/
theorem run_deterministic {D : Nat} {α : Type} [LinearOrder α] {σ : Type}
    (fit₁ fit₂ : List (Vec D) → List α → Option σ → σ)
    (acq₁ acq₂ : σ → α → Nat → List (Vec D))
    (ev₁ ev₂ : Vec D → α) (pts₁ pts₂ : List (Vec D)) (N₁ N₂ : Nat)
    (hfit : ∀ a b c, fit₁ a b c = fit₂ a b c)
    (hacq : ∀ m b j, acq₁ m b j = acq₂ m b j)
    (hev : ∀ x, ev₁ x = ev₂ x)
    (hpts : pts₁ = pts₂) (hN : N₁ = N₂) :
    boRun fit₁ acq₁ ev₁ pts₁ N₁ = boRun fit₂ acq₂ ev₂ pts₂ N₂ := by
  have h1 : fit₁ = fit₂ := funext fun a => funext fun b => funext fun c => hfit a b c
  have h2 : acq₁ = acq₂ := funext fun m => funext fun b => funext fun j => hacq m b j
  have h3 : ev₁ = ev₂ := funext hev
  rw [h1, h2, h3, hpts, hN]

/-- Concrete surrogate fit for the concrete runs below. -/
def wFit : List (Vec 1) → List ℚ → Option Unit → Unit := fun _ _ _ => ()

/-- Concrete acquisition stream: one candidate at the unit-cube midpoint. -/
def wAcq : Unit → ℚ → Nat → List (Vec 1) := fun _ _ _ => [fun _ => 1/2]

/-- Concrete objective: the first latent coordinate. -/
def wEval : Vec 1 → ℚ := fun x => x 0

/-- Concrete initial random draw: one point at the unit-cube corner. -/
def wPts : List (Vec 1) := [fun _ => 0]

/-- The concrete run after one iteration. -/
def wFinal1 : BOState 1 ℚ Unit :=
  match boRun wFit wAcq wEval wPts 1 with
  | some s => s
  | none => ⟨[], [], [], none⟩

/-- The concrete run after two iterations. -/
def wFinal2 : BOState 1 ℚ Unit :=
  match boRun wFit wAcq wEval wPts 2 with
  | some s => s
  | none => ⟨[], [], [], none⟩

/-- A second fit, acquisition stream, and objective, pointwise equal to
`wFit`, `wAcq`, `wEval` but not syntactically identical. -/
def wFit2 : List (Vec 1) → List ℚ → Option Unit → Unit := fun _ _ c => c.elim () (fun u => u)

def wAcq2 : Unit → ℚ → Nat → List (Vec 1) := fun _ _ _ => [fun _ => 2/4]

def wEval2 : Vec 1 → ℚ := fun x => x 0 + 0

theorem dataset_size_after_iterations_witness :
    (∀ m b j, (wAcq m b j).length = 1) ∧
    (boRun wFit wAcq wEval wPts 1 = some wFinal1) ∧
    (boRun wFit wAcq wEval wPts (1 + 1) = some wFinal2) ∧
    (wFinal1.train_x.length = wPts.length + 1 * 1 ∧
     wFinal1.train_obj.length = wPts.length + 1 * 1 ∧
     wFinal1.train_x.take wPts.length
       = wPts.map (unnormalize (bounds_lo 1) (bounds_hi 1)) ∧
     ∃ nx no, wFinal2.train_x = wFinal1.train_x ++ nx ∧
       wFinal2.train_obj = wFinal1.train_obj ++ no ∧
       nx.length = 1 ∧ no.length = 1) :=
  ⟨fun _ _ _ => rfl, rfl, rfl,
   dataset_size_after_iterations wFit wAcq wEval wPts 1 1 wFinal1 wFinal2
     (fun _ _ _ => rfl) rfl rfl⟩

theorem best_observed_monotone_witness :
    (boRun wFit wAcq wEval wPts 1 = some wFinal1) ∧
    (0 + 1 < wFinal1.best_observed.length) ∧
    wFinal1.best_observed.get ⟨0, by decide⟩
      ≤ wFinal1.best_observed.get ⟨1, by decide⟩ :=
  ⟨rfl, by decide,
   best_observed_monotone wFit wAcq wEval wPts 1 wFinal1 rfl 0 (by decide)⟩

theorem best_observed_last_and_length_witness :
    (boRun wFit wAcq wEval wPts 1 = some wFinal1) ∧
    wFinal1.best_observed.getLast? = torchMax wFinal1.train_obj ∧
    wFinal1.best_observed.length = 1 + 1 :=
  ⟨rfl, best_observed_last_and_length wFit wAcq wEval wPts 1 wFinal1 rfl⟩

theorem latents_within_domain_witness :
    (∀ p ∈ wPts, ∀ i, 0 ≤ p i ∧ p i ≤ 1) ∧
    (∀ m b j, ∀ c ∈ wAcq m b j, ∀ i, 0 ≤ c i ∧ c i ≤ 1) ∧
    (boRun wFit wAcq wEval wPts 1 = some wFinal1) ∧
    ∀ x ∈ wFinal1.train_x, ∀ i, -6 ≤ x i ∧ x i ≤ 6 := by
  have hrand : ∀ p ∈ wPts, ∀ i, 0 ≤ p i ∧ p i ≤ 1 := by
    intro p hp i
    rw [List.mem_singleton.mp hp]
    exact ⟨le_refl 0, by norm_num⟩
  have hacq : ∀ m b j, ∀ c ∈ wAcq m b j, ∀ i, 0 ≤ c i ∧ c i ≤ 1 := by
    intro m b j c hc i
    rw [List.mem_singleton.mp hc]
    norm_num
  exact ⟨hrand, hacq, rfl,
    latents_within_domain wFit wAcq wEval wPts 1 wFinal1 hrand hacq rfl⟩

theorem run_deterministic_witness :
    (∀ a b c, wFit a b c = wFit2 a b c) ∧
    (∀ m b j, wAcq m b j = wAcq2 m b j) ∧
    (∀ x, wEval x = wEval2 x) ∧
    boRun wFit wAcq wEval wPts 1 = boRun wFit2 wAcq2 wEval2 wPts 1 := by
  have hfit : ∀ a b c, wFit a b c = wFit2 a b c := by
    intro a b c
    cases c <;> rfl
  have hacq : ∀ m b j, wAcq m b j = wAcq2 m b j := by
    intro m b j
    unfold wAcq wAcq2
    congr 1
    funext i
    norm_num
  have hev : ∀ x, wEval x = wEval2 x := by
    intro x
    unfold wEval wEval2
    rw [add_zero]
  exact ⟨hfit, hacq, hev,
    run_deterministic wFit wFit2 wAcq wAcq2 wEval wEval2 wPts wPts 1 1
      hfit hacq hev rfl rfl⟩

/-- A Monte Carlo sampler for the acquisition estimator, as the library
construct `SobolQMCNormalSampler(sample_shape, seed)`: its sample count and
its seed. -/
structure MCSampler where
  sample_shape : Nat
  sampler_seed : Option Nat

/-- The argument record of a `qExpectedImprovement` construction: the fitted
model, `best_f`, and the optional Monte Carlo sampler (the library falls
back to an internal default sampler when `none` is passed). -/
structure QEIArgs (σ α : Type) where
  model : σ
  best_f : α
  sampler : Option MCSampler

/-- The qEI construction exactly as the loop body performs it:
`qExpectedImprovement(model=model, best_f=train_obj.max())`.  No sampler
argument is passed: the script never defines `MC_SAMPLES` and never uses the
`SobolQMCNormalSampler` it imports. -/
def mkQEI {σ α : Type} (model : σ) (best_f : α) : QEIArgs σ α :=
  ⟨model, best_f, none⟩

/-- The configuration constants the script defines (depending on the
`SMOKE_TEST` flag): batch size, acquisition restarts, raw candidate samples,
iteration budget, and the random seed.  The script defines no Monte Carlo
sample count for the acquisition estimator. -/
structure RunConfig where
  batch_size : Nat
  num_restarts : Nat
  raw_samples : Nat
  n_batch : Nat
  rng_seed : Nat

/-- The configuration of the script for a given `SMOKE_TEST` flag. -/
def scriptConfig (smoke : Bool) : RunConfig :=
  ⟨BATCH_SIZE smoke, NUM_RESTARTS smoke, RAW_SAMPLES smoke, N_BATCH smoke, seed⟩

/-- C6: the qEI acquisition of the loop body is built without any Monte
Carlo sampler argument: the sampler slot of the constructed acquisition is
the library-default `none`, so its sample count is not a quantity supplied
by the run configuration, contradicting the claim (and the comment of the
script itself, which announces `MC_SAMPLES=2048`). -/
theorem qEI_sampler_not_from_config {σ α : Type} (model : σ) (best_f : α) :
    (mkQEI model best_f).sampler = none := rfl

/-- Errors raised before the BO loop: the `FileNotFoundError` of
`get_pretrained_dir` when the pretrained-model location cannot be resolved,
a `torch.load` / `load_state_dict` failure on missing or mismatched weight
files, and a runtime error inside the loop. -/
inductive PyError : Type
  | fileNotFound : PyError
  | loadFailure : String → PyError
  | runtimeError : PyError
deriving DecidableEq

/-- A filesystem path, modelled as its list of components
(`os.path.join` is list append). -/
abbrev FsPath := List String

/-- Python `os.path.basename`: the last path component. -/
def basename (p : FsPath) : String := p.getLastD ("")

/-- Function `get_pretrained_dir`: the location named by the `PRETRAINED_LOCATION`
environment variable when set; otherwise the conventional subdirectory when
the working directory is named `botorch` or `tutorials`; otherwise a
`FileNotFoundError`. -/
def get_pretrained_dir (env : String → Option FsPath) (cwd : FsPath) :
    Except PyError FsPath :=
  match env ("PRETRAINED_LOCATION") with
  | some p => Except.ok p
  | none =>
    if basename cwd = "botorch" then Except.ok (cwd ++ ["tutorials", "pretrained_models"])
    else if basename cwd = "tutorials" then Except.ok (cwd ++ ["pretrained_models"])
    else Except.error PyError.fileNotFound

/-- The pre-loop evaluator construction: resolve the pretrained directory,
then load the CNN weights (`mnist_cnn.pt`) and the VAE weights
(`mnist_vae.pt`); `load` models `torch.load` composed with
`load_state_dict` and may fail on a missing or malformed file. -/
def load_models {W : Type} (env : String → Option FsPath) (cwd : FsPath)
    (load : FsPath → Except PyError W) :
    Except PyError (W × W) := do
  let dir ← get_pretrained_dir env cwd
  let cnn ← load (dir ++ ["mnist_cnn.pt"])
  let vae ← load (dir ++ ["mnist_vae.pt"])
  pure (cnn, vae)

/-- The whole script: the evaluator construction (weights loading) runs
before the loop; only if it succeeds does the seeding and the BO loop run,
with the objective built from the loaded weights. -/
def scriptRun {D : Nat} {α : Type} [LinearOrder α] {σ W : Type}
    (env : String → Option FsPath) (cwd : FsPath)
    (load : FsPath → Except PyError W)
    (mkEval : W → W → Vec D → α)
    (fit : List (Vec D) → List α → Option σ → σ)
    (acq : σ → α → Nat → List (Vec D))
    (randPts : List (Vec D)) (N : Nat) :
    Except PyError (BOState D α σ) := do
  let ws ← load_models env cwd load
  match boRun fit acq (mkEval ws.1 ws.2) randPts N with
  | some s => pure s
  | none => Except.error PyError.runtimeError

/-- C7: if the pre-loop construction fails — the pretrained-model location
cannot be resolved, or the weights are missing — the whole run aborts with
that configuration error, for every choice of loop collaborators, initial
draw, and iteration budget: the error is raised before any loop iteration
runs, and the result holds no partial dataset and no best-observed
history. -/
theorem config_error_aborts_run {D : Nat} {α : Type} [LinearOrder α] {σ W : Type}
    (env : String → Option FsPath) (cwd : FsPath)
    (load : FsPath → Except PyError W) (e : PyError)
    (hfail : load_models env cwd load = Except.error e) :
    ∀ (mkEval : W → W → Vec D → α)
      (fit : List (Vec D) → List α → Option σ → σ)
      (acq : σ → α → Nat → List (Vec D))
      (randPts : List (Vec D)) (N : Nat),
      scriptRun env cwd load mkEval fit acq randPts N = Except.error e := by
  intro mkEval fit acq randPts N
  unfold scriptRun
  rw [hfail]
  rfl

/-- Concrete environment with no `PRETRAINED_LOCATION`. -/
def wEnv : String → Option FsPath := fun _ => none

/-- Concrete working directory named neither `botorch` nor `tutorials`. -/
def wCwd : FsPath := ["home", "user"]

/-- Concrete loader (never reached in the witness). -/
def wLoad : FsPath → Except PyError Unit := fun _ => Except.ok ()

/-- Concrete evaluator builder. -/
def wMkEval : Unit → Unit → Vec 1 → ℚ := fun _ _ x => x 0

theorem config_error_aborts_run_witness :
    (load_models wEnv wCwd wLoad = Except.error PyError.fileNotFound) ∧
    scriptRun wEnv wCwd wLoad wMkEval wFit wAcq wPts 1
      = Except.error PyError.fileNotFound :=
  ⟨rfl, config_error_aborts_run wEnv wCwd wLoad PyError.fileNotFound rfl
    wMkEval wFit wAcq wPts 1⟩

/-- The per-digit scoring function `score(y) = exp(-2 * (y - 3)^2)`: a
squared exponential centered at the digit 3. -/
noncomputable def score (y : ℝ) : ℝ := Real.exp (-2 * (y - 3) ^ 2)

/-- The expected score of a probability vector over the ten digit labels:
the row-wise `(probs * scores).sum(dim=1)` of `score_image`. -/
noncomputable def expected_score (probs : Fin 10 → ℝ) : ℝ :=
  ∑ i : Fin 10, probs i * score ((i : ℕ) : ℝ)

/-- Function `score_image` per image row: `probs = torch.exp(cnn_model(x))` — the
CNN returns `log_softmax` values `logp` — then the expected score of
`probs`. -/
noncomputable def score_image (logp : Fin 10 → ℝ) : ℝ :=
  expected_score (fun i => Real.exp (logp i))

/-- The final `F.log_softmax` layer of the CNN over its ten logits. -/
noncomputable def log_softmax (z : Fin 10 → ℝ) : Fin 10 → ℝ :=
  fun i => z i - Real.log (∑ j : Fin 10, Real.exp (z j))

/-- A one-hot probability vector on label `j`. -/
def onehot (j : Fin 10) : Fin 10 → ℝ := fun i => if i = j then 1 else 0

theorem expected_score_onehot_eq (j : Fin 10) :
    expected_score (onehot j) = score ((j : ℕ) : ℝ) := by
  unfold expected_score onehot
  rw [Finset.sum_eq_single j]
  · simp
  · intro b _ hb
    simp [if_neg hb]
  · intro h
    exact absurd (Finset.mem_univ j) h

/-- C8: the scoring oracle computes the expectation of the per-label reward
`exp(-2 * (label - 3)^2)` under the probability distribution given by the
classifier output: on an output one-hot at label 3 it returns exactly
`exp(0) = 1`, and on an output one-hot at label 0 it returns `exp(-18)`
(approximately 1.23e-8). -/
theorem scoring_oracle_onehot_values :
    expected_score (onehot 3) = 1 ∧ expected_score (onehot 0) = Real.exp (-18) := by
  constructor
  · rw [expected_score_onehot_eq, show ((3 : Fin 10) : ℕ) = 3 from rfl]
    unfold score
    norm_num
  · rw [expected_score_onehot_eq, show ((0 : Fin 10) : ℕ) = 0 from rfl]
    unfold score
    norm_num

/-- Function `decode` on a batch: the frozen VAE decoder applied row by row (no
sampling at decode time). -/
def decode {D : Nat} {Img : Type} (vae_decode : Vec D → Img)
    (train_x : List (Vec D)) : List Img :=
  train_x.map vae_decode

/-- The objective evaluator on a batch,
`evaluate(latents) = score_image(decode(latents))`: decode each latent
vector, then score each decoded image through the classifier `cnn` (its
log-softmax output) and the expected score. -/
noncomputable def evaluate {D : Nat} {Img : Type}
    (vae_decode : Vec D → Img) (cnn : Img → Fin 10 → ℝ)
    (latents : List (Vec D)) : List ℝ :=
  (decode vae_decode latents).map (fun img => score_image (cnn img))

/-- C9: calling the objective evaluator with an empty batch of latent
vectors (zero rows) returns an empty score sequence rather than raising an
error. -/
theorem evaluate_empty_batch {D : Nat} {Img : Type}
    (vae_decode : Vec D → Img) (cnn : Img → Fin 10 → ℝ) :
    evaluate vae_decode cnn ([] : List (Vec D)) = ([] : List ℝ) := rfl

/-- The softmax probabilities: the exponentiated log-softmax output of the
classifier, as computed by `probs = torch.exp(cnn_model(x))`. -/
noncomputable def softmax_prob (z : Fin 10 → ℝ) : Fin 10 → ℝ :=
  fun i => Real.exp (log_softmax z i)

theorem sum_exp_pos (z : Fin 10 → ℝ) : 0 < ∑ j : Fin 10, Real.exp (z j) :=
  Finset.sum_pos (fun j _ => Real.exp_pos (z j)) ⟨0, Finset.mem_univ 0⟩

theorem softmax_prob_eq (z : Fin 10 → ℝ) (i : Fin 10) :
    softmax_prob z i = Real.exp (z i) / ∑ j : Fin 10, Real.exp (z j) := by
  unfold softmax_prob log_softmax
  rw [Real.exp_sub, Real.exp_log (sum_exp_pos z)]

theorem softmax_prob_pos (z : Fin 10 → ℝ) (i : Fin 10) : 0 < softmax_prob z i :=
  Real.exp_pos _

theorem softmax_prob_sum (z : Fin 10 → ℝ) : ∑ i : Fin 10, softmax_prob z i = 1 := by
  have h : ∀ i : Fin 10, softmax_prob z i
      = Real.exp (z i) / ∑ j : Fin 10, Real.exp (z j) := softmax_prob_eq z
  rw [Finset.sum_congr rfl (fun i _ => h i), ← Finset.sum_div,
    div_self (ne_of_gt (sum_exp_pos z))]

theorem score_pos (y : ℝ) : 0 < score y := Real.exp_pos _

theorem score_le_one (y : ℝ) : score y ≤ 1 := by
  unfold score
  rw [show (1 : ℝ) = Real.exp 0 from (Real.exp_zero).symm]
  exact Real.exp_le_exp.mpr (by nlinarith [sq_nonneg (y - 3)])

theorem score_image_softmax_mem (z : Fin 10 → ℝ) :
    0 < score_image (log_softmax z) ∧ score_image (log_softmax z) ≤ 1 := by
  have hform : score_image (log_softmax z) = expected_score (softmax_prob z) := rfl
  constructor
  · rw [hform]
    exact Finset.sum_pos
      (fun i _ => mul_pos (softmax_prob_pos z i) (score_pos _))
      ⟨0, Finset.mem_univ 0⟩
  · rw [hform]
    unfold expected_score
    calc ∑ i : Fin 10, softmax_prob z i * score ((i : ℕ) : ℝ)
        ≤ ∑ i : Fin 10, softmax_prob z i * 1 :=
          Finset.sum_le_sum (fun i _ =>
            mul_le_mul_of_nonneg_left (score_le_one _)
              (le_of_lt (softmax_prob_pos z i)))
      _ = 1 := by
          rw [show (∑ i : Fin 10, softmax_prob z i * 1)
              = ∑ i : Fin 10, softmax_prob z i from
            Finset.sum_congr rfl (fun i _ => mul_one _)]
          exact softmax_prob_sum z

/-- C10: every score the objective evaluator returns lies in `(0, 1]`: the
exponentiated log-softmax output of the classifier is a probability vector,
each per-label reward lies in `(0, 1]`, so the expected score is strictly
positive and at most 1 — and hence so is every entry of the score column
of the dataset and of the best-observed history of a completed run whose objective
is `score_image` of the classifier log-softmax output on the decoded
latent. -/
theorem scores_in_unit_interval {D : Nat} {σ : Type}
    (fit : List (Vec D) → List ℝ → Option σ → σ)
    (acq : σ → ℝ → Nat → List (Vec D))
    (logits : Vec D → Fin 10 → ℝ) (randPts : List (Vec D)) (N : Nat)
    (s' : BOState D ℝ σ)
    (h : boRun fit acq (fun x => score_image (log_softmax (logits x))) randPts N
      = some s') :
    (∀ z : Fin 10 → ℝ, 0 < score_image (log_softmax z) ∧
      score_image (log_softmax z) ≤ 1) ∧
    (∀ y ∈ s'.train_obj, 0 < y ∧ y ≤ 1) ∧
    (∀ y ∈ s'.best_observed, 0 < y ∧ y ≤ 1) := by
  obtain ⟨bv, hbv, hloop⟩ := boRun_spec fit acq
    (fun x => score_image (log_softmax (logits x))) randPts N h
  have hev : ∀ x : Vec D,
      0 < score_image (log_softmax (logits x)) ∧
      score_image (log_softmax (logits x)) ≤ 1 :=
    fun x => score_image_softmax_mem (logits x)
  have hmem := boLoop_scores_mem fit acq
    (fun x => score_image (log_softmax (logits x)))
    (fun y => 0 < y ∧ y ≤ 1) hev N 0 _ s' hloop ?_ ?_
  · exact ⟨fun z => score_image_softmax_mem z, hmem.1, hmem.2⟩
  · intro y hy
    obtain ⟨x, _, hxy⟩ := List.mem_map.mp hy
    rw [← hxy]
    exact hev x
  · intro y hy
    rw [List.mem_singleton.mp hy]
    have hm := torchMax_mem hbv
    obtain ⟨x, _, hxy⟩ := List.mem_map.mp hm
    rw [← hxy]
    exact hev x

/-- Concrete surrogate fit over real scores. -/
def rFit : List (Vec 1) → List ℝ → Option Unit → Unit := fun _ _ _ => ()

/-- Concrete acquisition stream over real scores (empty batches). -/
def rAcq : Unit → ℝ → Nat → List (Vec 1) := fun _ _ _ => []

/-- Concrete classifier logits on the decoded latent. -/
def rLogits : Vec 1 → Fin 10 → ℝ := fun _ _ => 0

/-- The concrete real-scored run after zero iterations. -/
noncomputable def rFinal : BOState 1 ℝ Unit :=
  match boRun rFit rAcq (fun x => score_image (log_softmax (rLogits x))) wPts 0 with
  | some s => s
  | none => ⟨[], [], [], none⟩

theorem scores_in_unit_interval_witness :
    (boRun rFit rAcq (fun x => score_image (log_softmax (rLogits x))) wPts 0
      = some rFinal) ∧
    ((∀ z : Fin 10 → ℝ, 0 < score_image (log_softmax z) ∧
        score_image (log_softmax z) ≤ 1) ∧
     (∀ y ∈ rFinal.train_obj, 0 < y ∧ y ≤ 1) ∧
     (∀ y ∈ rFinal.best_observed, 0 < y ∧ y ≤ 1)) :=
  ⟨rfl, scores_in_unit_interval rFit rAcq rLogits wPts 0 rFinal rfl⟩

end VaeMnist
